import Mathlib

set_option autoImplicit false

namespace Biryani

/-- Dynamic (Python-like) runtime values. `none` is Python's `None`, which the
library uses both as the absent-value marker and as the null error. Mappings
are modelled as association lists: string-keyed for input/output mappings and
`Nat`-keyed for the index-keyed error mappings produced by the sequence
converters. Python tuples are not needed by any converter modelled here. -/
inductive Val where
  | none
  | bool (b : Bool)
  | int (n : Int)
  | str (s : String)
  | list (xs : List Val)
  | vset (xs : List Val)
  | dict (xs : List (String × Val))
  | idict (xs : List (Nat × Val))

/-- Python exceptions the modelled code can raise. -/
inductive Exc where
  | typeError
  | indexError
  | unboundLocalError
  deriving DecidableEq, Repr

/-- Python's `value is None` test. -/
def Val.isNone : Val → Bool
  | .none => true
  | _ => false

mutual

/-- Structural equality on modelled values (Python's `==` on this fragment).
Only used by the `translate` combinator's membership/lookup test. -/
def beqVal : Val → Val → Bool
  | .none, .none => true
  | .bool a, .bool b => a == b
  | .int a, .int b => a == b
  | .str a, .str b => a == b
  | .list xs, .list ys => beqValList xs ys
  | .vset xs, .vset ys => beqValList xs ys
  | .dict xs, .dict ys => beqValSList xs ys
  | .idict xs, .idict ys => beqValNList xs ys
  | _, _ => false

/-- Elementwise `beqVal` on value lists. -/
def beqValList : List Val → List Val → Bool
  | [], [] => true
  | x :: xs, y :: ys => beqVal x y && beqValList xs ys
  | _, _ => false

/-- Elementwise `beqVal` on string-keyed entries. -/
def beqValSList : List (String × Val) → List (String × Val) → Bool
  | [], [] => true
  | (k, x) :: xs, (l, y) :: ys => k == l && (beqVal x y && beqValSList xs ys)
  | _, _ => false

/-- Elementwise `beqVal` on integer-keyed entries. -/
def beqValNList : List (Nat × Val) → List (Nat × Val) → Bool
  | [], [] => true
  | (k, x) :: xs, (l, y) :: ys => k == l && (beqVal x y && beqValNList xs ys)
  | _, _ => false

end

/-- Modelled from the spec: the per-call context (module `biryani.states`,
which is not part of the sources at hand). Per the spec it carries a
message-translation capability `translate(message) -> message`, identity by
default; `state._(msg)` in the code is `ctx.translate msg` here. -/
structure Ctx where
  translate : String → String

/-- Modelled from the spec: the process-wide default state, whose translation
function is the identity. -/
def defaultCtx : Ctx := ⟨fun s => s⟩

/-- A converter: `(value, state) -> (converted value, error)`, where the call
may also raise a Python exception. The error component is `Val.none` on
success (Python returns the `None` object as the null error). -/
def Conv : Type := Val → Ctx → Except Exc (Val × Val)

/-- A conversion result. -/
abbrev CRes : Type := Except Exc (Val × Val)

/-- The `default` argument of the structural combinators: Python `None`,
the literal string `'ignore'`, or a fallback converter. -/
inductive DefaultArg where
  | null
  | ignore
  | conv (c : Conv)

/-- `noop(value, state)`: return value as is. -/
def noop : Conv := fun v _ => pure (v, Val.none)

/-- `require(value, state)`: error `'Missing value'` on `None`, else pass
through. -/
def require : Conv := fun v ctx =>
  pure (if v.isNone then (Val.none, Val.str (ctx.translate "Missing value")) else (v, Val.none))

/-- `fail(msg)`: a converter that always returns `(None, state._(msg))`. -/
def fail (msg : String) : Conv := fun _ ctx => pure (Val.none, Val.str (ctx.translate msg))

/-- `default(constant)`: replace a missing value (`None`) by the constant. -/
def default (constant : Val) : Conv := fun v _ =>
  pure (if v.isNone then (constant, Val.none) else (v, Val.none))

/-- `set_value(constant)`: replace any non-null value by the constant. -/
def set_value (constant : Val) : Conv := fun v _ =>
  pure (if v.isNone then (Val.none, Val.none) else (constant, Val.none))

/-- `test(function, error = 'Test failed', handle_none = False)`. The Python
`if value is None and not handle_none or function is None or function(value)`
is evaluated with short-circuiting, so `function` is only called (and can only
raise) when the first two disjuncts are false. -/
def test (func : Option (Val → Except Exc Bool)) (error : String) (handle_none : Bool) : Conv :=
  fun v ctx =>
    if v.isNone && !handle_none then pure (v, Val.none)
    else match func with
    | Option.none => pure (v, Val.none)
    | Option.some f => do
        let b ← f v
        if b then pure (v, Val.none) else pure (Val.none, Val.str (ctx.translate error))

/-- `function(function, handle_none = False)`: apply the function and wrap the
result as a success; a missing value is passed through unless `handle_none`. -/
def function (func : Option (Val → Except Exc Val)) (handle_none : Bool) : Conv :=
  fun v _ =>
    match func with
    | Option.none => pure (v, Val.none)
    | Option.some f =>
      if v.isNone && !handle_none then pure (v, Val.none)
      else do
        let w ← f v
        pure (w, Val.none)

/-- `translate(conversions)`: replace values found in the dictionary, keep
others (and `None`, and a `None` table) as is. Built on `function`. -/
def translate (conversions : Option (List (Val × Val))) : Conv :=
  function (Option.some (fun v => pure (
    match conversions with
    | Option.none => v
    | Option.some table =>
      if v.isNone then v
      else match table.find? (fun p => beqVal p.1 v) with
        | Option.none => v
        | Option.some p => p.2))) false

/-- `condition(test_converter, ok_converter, error_converter = None)`: each
branch receives the original value and the caller's state. -/
def condition (test_converter ok_converter : Conv) (error_converter : Option Conv) : Conv :=
  fun v ctx => do
    let t ← test_converter v ctx
    if t.2.isNone then ok_converter v ctx
    else match error_converter with
      | Option.none => pure (v, Val.none)
      | Option.some ec => ec v ctx

/-- Loop of `first_match`: keep the last attempted result, return the first
successful one. -/
def firstMatchGo (v : Val) (ctx : Ctx) : List Conv → Val × Val → CRes
  | [], last => pure last
  | c :: rest, _ => do
      let r ← c v ctx
      if r.2.isNone then pure r else firstMatchGo v ctx rest r

/-- `first_match(*converters)`. -/
def first_match (converters : List Conv) : Conv := fun v ctx =>
  firstMatchGo v ctx converters (v, Val.none)

/-- The `pipe` loop after the first executed converter. The Python loop body
ends with `args = [value]; kwargs = {}`, so every converter after the first is
called without the `state` keyword and falls back to its default argument, the
process-wide default state — not the caller's state. -/
def pipeRest : List Conv → Val → CRes
  | [], v => pure (v, Val.none)
  | c :: rest, v => do
      let r ← c v defaultCtx
      if r.2.isNone then pipeRest rest r.1 else pure r

/-- `pipe(*converters)`: with no converters, behaves as `noop`. `None`
entries are skipped; a first non-`None` converter still receives the original
arguments (value and state). When the converter list is non-empty but every
entry is `None`, the Python `return value, None` after the loop reads the
never-assigned local `value` and raises `UnboundLocalError`. -/
def pipe (converters : List (Option Conv)) : Conv := fun v ctx =>
  if converters.isEmpty then pure (v, Val.none)
  else
    match converters.filterMap id with
    | [] => throw Exc.unboundLocalError
    | c :: rest => do
        let r ← c v ctx
        if r.2.isNone then pipeRest rest r.1 else pure r

/-- Modelled from the spec: §4.2's `pipe` loop, which re-supplies the caller's
context unchanged to every step. Only used to compare against the source's
`pipe`. -/
def pipeSpecGo (ctx : Ctx) : List Conv → Val → CRes
  | [], v => pure (v, Val.none)
  | c :: rest, v => do
      let r ← c v ctx
      if r.2.isNone then pipeSpecGo ctx rest r.1 else pure r

/-- Modelled from the spec: `pipe` per §4.2 (`None` entries treated as
identity, context re-supplied unchanged each step). -/
def pipeSpec (converters : List (Option Conv)) : Conv := fun v ctx =>
  pipeSpecGo ctx (converters.filterMap id) v

/-- The construction-time filtering of `structured_mapping`: entries whose
converter is `None` are dropped from the table. -/
def filterTable (converters : List (String × Option Conv)) : List (String × Conv) :=
  converters.filterMap (fun p => p.2.map (fun c => (p.1, c)))

/-- `values.get(name)` on a mapping: `None` when the key is missing. -/
def dictGet (entries : List (String × Val)) (name : String) : Val :=
  match entries.find? (fun p => p.1 == name) with
  | Option.none => Val.none
  | Option.some p => p.2

/-- `default if default is not None else fail(N_('Unexpected item'))`, the
converter assigned to an unconfigured key/position (the `'ignore'` case never
reaches this expression). -/
def defaultConvOf (dflt : DefaultArg) : Conv :=
  match dflt with
  | .conv c => c
  | _ => fail "Unexpected item"

/-- `name in values_converter` on the effective table. -/
def hasName (table : List (String × Conv)) (name : String) : Bool :=
  table.any (fun p => p.1 == name)

/-- One step of extending the table: `if name not in values_converter:
values_converter[name] = default if default is not None else fail(...)`. -/
def effStep (dflt : DefaultArg) (acc : List (String × Conv)) (name : String) :
    List (String × Conv) :=
  if hasName acc name then acc else acc ++ [(name, defaultConvOf dflt)]

/-- The effective per-key converter table of `structured_mapping_converter`:
the configured table, extended — unless `default == 'ignore'` — with the
default-policy converter for every input key absent from the table. -/
def effTable (table : List (String × Conv)) (names : List String) (dflt : DefaultArg) :
    List (String × Conv) :=
  match dflt with
  | .ignore => table
  | _ => names.foldl (effStep dflt) table

/-- The per-key loop of `structured_mapping_converter`: an error goes to the
error mapping, `elif` a non-`None` value goes to the output mapping. Both
accumulate in table order; a raising converter propagates its exception. -/
def smLoop (entries : List (String × Val)) (ctx : Ctx) :
    List (String × Conv) → Except Exc (List (String × Val) × List (String × Val))
  | [] => pure ([], [])
  | (name, c) :: rest => do
      let r ← c (dictGet entries name) ctx
      let (outs, errs) ← smLoop entries ctx rest
      if !r.2.isNone then pure (outs, (name, r.2) :: errs)
      else if !r.1.isNone then pure ((name, r.1) :: outs, errs)
      else pure (outs, errs)

/-- The final value/error pair of `structured_mapping_converter`: the
constructed output when it is non-empty or `keep_empty` is set, else `None`;
`errors or None`. -/
def smFinish (cons : List (String × Val) → Val) (keep_empty : Bool)
    (outs errs : List (String × Val)) : Val × Val :=
  ((if keep_empty || !outs.isEmpty then cons outs else Val.none),
   (if errs.isEmpty then Val.none else Val.dict errs))

/-- `structured_mapping_converter` over an already-filtered table. A
non-mapping, non-`None` input raises (Python fails on `values.get`). -/
def smcOf (table : List (String × Conv)) (cons : List (String × Val) → Val)
    (dflt : DefaultArg) (keep_empty : Bool) : Conv :=
  fun values ctx =>
    match values with
    | .none => pure (Val.none, Val.none)
    | .dict entries => do
        let (outs, errs) ← smLoop entries ctx (effTable table (entries.map (fun p => p.1)) dflt)
        pure (smFinish cons keep_empty outs errs)
    | _ => throw Exc.typeError

/-- `structured_mapping(converters, constructor = dict, default = None,
keep_empty = False)`. -/
def structured_mapping (converters : List (String × Option Conv))
    (cons : List (String × Val) → Val) (dflt : DefaultArg) (keep_empty : Bool) : Conv :=
  smcOf (filterTable converters) cons dflt keep_empty

/-- `itertools.islice(values, len(values_converter))` zipped long against the
converter table: input positions beyond the input's length are filled with
`None`. -/
def padTo (xs : List Val) (n : Nat) : List Val :=
  xs.take n ++ List.replicate (n - xs.length) Val.none

/-- The per-position loop of `structured_sequence_converter`: the converted
value is appended unconditionally (positional alignment); an error is recorded
under its integer position. -/
def ssLoop (ctx : Ctx) : List (Conv × Val) → Nat → Except Exc (List Val × List (Nat × Val))
  | [], _ => pure ([], [])
  | (c, v) :: rest, i => do
      let r ← c v ctx
      let (outs, errs) ← ssLoop ctx rest (i + 1)
      pure (r.1 :: outs, if r.2.isNone then errs else (i, r.2) :: errs)

/-- The final value/error pair shared by the sequence converters. -/
def seqFinish (cons : List Val → Val) (keep_empty : Bool)
    (outs : List Val) (errs : List (Nat × Val)) : Val × Val :=
  ((if keep_empty || !outs.isEmpty then cons outs else Val.none),
   (if errs.isEmpty then Val.none else Val.idict errs))

/-- The effective converter list of `structured_sequence_converter`: unless
`default == 'ignore'`, the `while len(values) > len(values_converter)` loop
extends the configured list with the default-policy converter once per extra
input position. -/
def seqTable (cs : List Conv) (dflt : DefaultArg) (inLen : Nat) : List Conv :=
  match dflt with
  | .ignore => cs
  | _ => cs ++ List.replicate (inLen - cs.length) (defaultConvOf dflt)

/-- `structured_sequence(converters, constructor = list, default = None,
keep_empty = False)`; `None` entries of the converter list are removed at
construction time. A non-sequence, non-`None` input raises (Python fails on
`len(values)`). -/
def structured_sequence (converters : List (Option Conv)) (cons : List Val → Val)
    (dflt : DefaultArg) (keep_empty : Bool) : Conv :=
  fun values ctx =>
    match values with
    | .none => pure (Val.none, Val.none)
    | .list xs => do
        let tbl := seqTable (converters.filterMap id) dflt xs.length
        let (outs, errs) ← ssLoop ctx (tbl.zip (padTo xs tbl.length)) 0
        pure (seqFinish cons keep_empty outs errs)
    | _ => throw Exc.typeError

/-- The items `enumerate(values)` yields for the sequences `uniform_sequence`
is used with (lists and sets); anything else raises. -/
def seqItems : Val → Except Exc (List Val)
  | .list xs => pure xs
  | .vset xs => pure xs
  | _ => throw Exc.typeError

/-- The per-item loop of `uniform_sequence_converter`: an error is recorded
under the item's position, and — independently — the converted value is kept
when it is non-`None` or `keep_null_items` is set. -/
def usLoop (conv : Conv) (ctx : Ctx) (keep_null_items : Bool) :
    List Val → Nat → Except Exc (List Val × List (Nat × Val))
  | [], _ => pure ([], [])
  | v :: rest, i => do
      let r ← conv v ctx
      let (outs, errs) ← usLoop conv ctx keep_null_items rest (i + 1)
      pure ((if keep_null_items || !r.1.isNone then r.1 :: outs else outs),
            (if r.2.isNone then errs else (i, r.2) :: errs))

/-- `uniform_sequence(converter, constructor = list, keep_empty = False,
keep_null_items = False)`. -/
def uniform_sequence (conv : Conv) (cons : List Val → Val)
    (keep_empty keep_null_items : Bool) : Conv :=
  fun values ctx =>
    if values.isNone then pure (Val.none, Val.none)
    else do
      let xs ← seqItems values
      let (outs, errs) ← usLoop conv ctx keep_null_items xs 0
      pure (seqFinish cons keep_empty outs errs)

/-- The container classes `item_or_sequence` is used with as its
`constructor` argument: a Python class used both for the `isinstance` check
and to build the output container. -/
inductive PyCls where
  | list
  | set
  deriving DecidableEq, Repr

/-- `isinstance(value, cls)`. -/
def isInst : PyCls → Val → Bool
  | .list, .list _ => true
  | .set, .vset _ => true
  | _, _ => false

/-- The class name interpolated into `test_isinstance`'s error message. -/
def clsName : PyCls → String
  | .list => "list"
  | .set => "set"

/-- Python `set(xs)`: deduplicate, keeping first occurrences. -/
def setOfList (xs : List Val) : List Val :=
  xs.foldl (fun acc x => if acc.any (fun y => beqVal y x) then acc else acc ++ [x]) []

/-- Applying the `constructor` class to a list of converted items. -/
def consOf : PyCls → List Val → Val
  | .list, xs => Val.list xs
  | .set, xs => Val.vset (setOfList xs)

/-- `test_isinstance(class_or_classes)` at the two classes used here. -/
def test_isinstance (cls : PyCls) : Conv :=
  test (Option.some (fun v => pure (isInst cls v)))
    ("Value is not an instance of " ++ clsName cls) false

/-- `len(value)`: defined for sequences, sets, mappings and strings; raises
`TypeError` otherwise. -/
def pyLen : Val → Except Exc Nat
  | .str s => pure s.length
  | .list xs => pure xs.length
  | .vset xs => pure xs.length
  | .dict xs => pure xs.length
  | .idict xs => pure xs.length
  | _ => throw Exc.typeError

/-- `value[0]`: first item of a list (IndexError when empty), first character
of a string; a set does not support indexing and raises `TypeError`, as does
any non-subscriptable value. -/
def pyItem0 : Val → Except Exc Val
  | .list [] => throw Exc.indexError
  | .list (x :: _) => pure x
  | .str s => if s.isEmpty then throw Exc.indexError else pure (Val.str (s.take 1))
  | _ => throw Exc.typeError

/-- `isinstance(x, (list, set, tuple))` (tuples are not modelled). -/
def isContainer : Val → Bool
  | .list _ => true
  | .vset _ => true
  | _ => false

/-- The predicate of `extract_when_singleton`'s `test`:
`len(value) == 1 and not isinstance(value[0], (list, set, tuple))`, with
Python's short-circuiting `and` — `value[0]` is only evaluated (and can only
raise) when the length is 1. -/
def singletonTest (v : Val) : Except Exc Bool := do
  let n ← pyLen v
  if n == 1 then do
    let x ← pyItem0 v
    pure (!isContainer x)
  else pure false

/-- `list(value)` for the values reaching `extract_when_singleton`'s
extraction function. -/
def pyListOf : Val → Except Exc (List Val)
  | .list xs => pure xs
  | .vset xs => pure xs
  | .str s => pure (s.toList.map (fun c => Val.str (String.mk [c])))
  | _ => throw Exc.typeError

/-- `list(value)[0]`'s final subscript. -/
def headOf : List Val → Except Exc Val
  | [] => throw Exc.indexError
  | x :: _ => pure x

/-- The function of `extract_when_singleton`: `lambda value: list(value)[0]`. -/
def extractFn (v : Val) : Except Exc Val := do
  let xs ← pyListOf v
  headOf xs

/-- `extract_when_singleton`: extract the first item of a singleton sequence
when that item is not itself a sequence, otherwise keep the value unchanged. -/
def extract_when_singleton : Conv :=
  condition (test (Option.some singletonTest) "Test failed" false)
    (function (Option.some extractFn) false)
    Option.none

/-- `item_or_sequence(converter, constructor = list, keep_null_items =
False)`. -/
def item_or_sequence (conv : Conv) (cls : PyCls) (keep_null_items : Bool) : Conv :=
  condition (test_isinstance cls)
    (pipe [Option.some (uniform_sequence conv (consOf cls) false keep_null_items),
           Option.some extract_when_singleton])
    (Option.some conv)

/-- A context whose translation appends a marker, so that whether an error
message was localized by the caller's state is observable in the result. -/
def markCtx : Ctx := ⟨fun s => s ++ "!"⟩

/- Reduction helpers for the `do` notation over `Except Exc`. -/

theorem bind_ok_eq {α β : Type} (a : α) (f : α → Except Exc β) :
    (Except.ok a : Except Exc α) >>= f = f a := rfl

theorem bind_error_eq {α β : Type} (e : Exc) (f : α → Except Exc β) :
    (Except.error e : Except Exc α) >>= f = Except.error e := rfl

theorem pure_eq_ok {α : Type} (a : α) : (pure a : Except Exc α) = Except.ok a := rfl

/--
C1: the claim says `pipe` supplies the caller's context to every step. The
code does not: after the first executed converter the loop resets
`args = [value]; kwargs = {}`, so later converters run with the process-wide
default state. With a caller state whose translator appends `"!"`,
`pipe(noop, fail('An error occured'))` leaves the error unmarked (it was
translated by the default state), although `fail` invoked with the caller's
state — as the spec-modelled `pipeSpec` does — marks it.
-/
theorem C1_pipe_state_dropped :
    pipe [Option.some noop, Option.some (fail "An error occured")] (Val.int 42) markCtx
      = .ok (Val.none, Val.str "An error occured")
    ∧ fail "An error occured" (Val.int 42) markCtx
      = .ok (Val.none, Val.str "An error occured!")
    ∧ pipeSpec [Option.some noop, Option.some (fail "An error occured")] (Val.int 42) markCtx
      = .ok (Val.none, Val.str "An error occured!")
    ∧ pipe [Option.some noop, Option.some (fail "An error occured")] (Val.int 42) markCtx
      ≠ pipeSpec [Option.some noop, Option.some (fail "An error occured")] (Val.int 42) markCtx := by
  refine ⟨rfl, rfl, rfl, fun h => ?_⟩
  have h2 : (Except.ok (Val.none, Val.str "An error occured") : CRes)
      = Except.ok (Val.none, Val.str "An error occured!") := h
  simp only [Except.ok.injEq, Prod.mk.injEq, Val.str.injEq] at h2
  exact absurd h2.2 (by decide)

/--
C4: when the first converter returns a non-null error, `pipe(a, b)` returns
exactly `a`'s result and the second converter is irrelevant (it is quantified
over, and the conclusion does not depend on it).
-/
theorem C4_pipe_short_circuit (a b : Conv) (v : Val) (ctx : Ctx) (va ea : Val)
    (ha : a v ctx = .ok (va, ea)) (hne : ea.isNone = false) :
    pipe [Option.some a, Option.some b] v ctx = a v ctx := by
  have hp : pipe [Option.some a, Option.some b] v ctx
      = (a v ctx) >>= (fun r => if r.2.isNone then pipeRest [b] r.1 else pure r) := rfl
  rw [hp, ha, bind_ok_eq]
  simp [hne, pure_eq_ok]

/-- Witness for C4 at `a = fail "m"`, `b = noop`, input `1`. -/
theorem C4_pipe_short_circuit_witness :
    pipe [Option.some (fail "m"), Option.some noop] (Val.int 1) defaultCtx
      = fail "m" (Val.int 1) defaultCtx :=
  C4_pipe_short_circuit (fail "m") noop (Val.int 1) defaultCtx Val.none (Val.str "m") rfl rfl

/--
C8: for a predicate-backed `test(predicate, message)` (spec signature, so
`handle_none` is false), a non-absent input is echoed unchanged with null
error when the predicate holds and replaced by `(None, translated message)`
when it fails; absent input passes through with no error.
-/
theorem C8_test_contract (p : Val → Bool) (msg : String) (ctx : Ctx) (v : Val)
    (hv : v.isNone = false) :
    test (Option.some (fun x => pure (p x))) msg false v ctx
      = .ok (if p v then (v, Val.none) else (Val.none, Val.str (ctx.translate msg)))
    ∧ test (Option.some (fun x => pure (p x))) msg false Val.none ctx
      = .ok (Val.none, Val.none) := by
  constructor
  · simp only [test, hv, Bool.not_false, Bool.and_true, Bool.false_eq_true, if_false,
      bind_ok_eq, pure_eq_ok]
    cases hp : p v <;> simp
  · rfl

/-- Witness for C8 at the container predicate, message `"Test failed"`, the
default state and input `3` (on which the predicate fails). -/
theorem C8_test_contract_witness :
    test (Option.some (fun x => pure (isContainer x))) "Test failed" false (Val.int 3) defaultCtx
      = .ok (Val.none, Val.str "Test failed")
    ∧ test (Option.some (fun x => pure (isContainer x))) "Test failed" false Val.none defaultCtx
      = .ok (Val.none, Val.none) := by
  have h := C8_test_contract isContainer "Test failed" defaultCtx (Val.int 3) rfl
  exact ⟨by rw [h.1]; rfl, h.2⟩

/--
C9: a configured field whose converter is `None` is removed from the table
when `structured_mapping` is constructed — the resulting converter is equal to
the one built without that entry — and a key for it in the input then falls
under the default policy: with default `None` it yields the per-key error
`'Unexpected item'`, and on an input without the key the field is never
invoked (the empty mapping converts to `(None, None)`).
-/
theorem C9_none_converter_removed :
    (∀ (c₁ c₂ : List (String × Option Conv)) (k : String)
        (cons : List (String × Val) → Val) (dflt : DefaultArg) (ke : Bool),
      structured_mapping (c₁ ++ (k, Option.none) :: c₂) cons dflt ke
        = structured_mapping (c₁ ++ c₂) cons dflt ke)
    ∧ structured_mapping [("a", Option.none)] Val.dict .null false (Val.dict []) defaultCtx
        = .ok (Val.none, Val.none)
    ∧ structured_mapping [("a", Option.none)] Val.dict .null false
        (Val.dict [("a", Val.int 1)]) defaultCtx
        = .ok (Val.none, Val.dict [("a", Val.str "Unexpected item")]) := by
  refine ⟨fun c₁ c₂ k cons dflt ke => ?_, rfl, rfl⟩
  have ht : filterTable (c₁ ++ (k, Option.none) :: c₂) = filterTable (c₁ ++ c₂) := by
    unfold filterTable
    simp
  unfold structured_mapping
  rw [ht]

/-- A value is `None` exactly when `isNone` says so. -/
theorem isNone_iff (v : Val) : v.isNone = true ↔ v = Val.none := by
  cases v <;> simp [Val.isNone]

/-- `None` is `None`. -/
theorem isNone_none : (Val.none).isNone = true := rfl

/--
C10: when `item_or_sequence` is built with `constructor = set` and the item
converter succeeds with a non-null value on the single element, the singleton
test inside `extract_when_singleton` evaluates `value[0]` on the converted
one-element set and raises `TypeError` — the converter contract's error
branch is never reached.
-/
theorem C10_set_singleton_raises (conv : Conv) (x : Val) (ctx : Ctx) (cv : Val)
    (hc : conv x ctx = .ok (cv, Val.none)) (hcv : cv.isNone = false) :
    item_or_sequence conv .set false (Val.vset [x]) ctx = .error Exc.typeError := by
  have h3 : usLoop conv ctx false [x] 0 = .ok ([cv], []) := by
    have e : usLoop conv ctx false [x] 0 = (do
        let r ← conv x ctx
        let (outs, errs) ← usLoop conv ctx false [] 1
        pure ((if false || !r.1.isNone then r.1 :: outs else outs),
              (if r.2.isNone then errs else (0, r.2) :: errs))) := rfl
    rw [e, hc, bind_ok_eq]
    simp [usLoop, hcv, pure_eq_ok, bind_ok_eq, isNone_none]
  have h4 : uniform_sequence conv (consOf .set) false false (Val.vset [x]) ctx
      = .ok (Val.vset [cv], Val.none) := by
    have e : uniform_sequence conv (consOf .set) false false (Val.vset [x]) ctx = (do
        let (outs, errs) ← usLoop conv ctx false [x] 0
        pure (seqFinish (consOf .set) false outs errs)) := rfl
    rw [e, h3, bind_ok_eq]
    rfl
  have h5 : item_or_sequence conv .set false (Val.vset [x]) ctx
      = (uniform_sequence conv (consOf .set) false false (Val.vset [x]) ctx) >>= (fun r =>
          if r.2.isNone then pipeRest [extract_when_singleton] r.1 else pure r) := rfl
  rw [h5, h4, bind_ok_eq]
  rfl

/-- Witness for C10 at the identity converter `noop` and the one-element set
`{1}`. -/
theorem C10_set_singleton_raises_witness :
    item_or_sequence noop .set false (Val.vset [Val.int 1]) defaultCtx = .error Exc.typeError :=
  C10_set_singleton_raises noop (Val.int 1) defaultCtx (Val.int 1) rfl rfl

/--
C7 counterexample: the claim as stated fails when the converter returns an
error. With `conv = fail 'Err'` on `[1]`, the converted item (`None`) is not a
nested container, yet `item_or_sequence(conv)` yields the error wrapped in a
position-keyed mapping `{0: 'Err'}` and not `conv`'s flat result `(None,
'Err')`.
-/
theorem C7_collapse_counterexample :
    isContainer (Val.none) = false
    ∧ fail "Err" (Val.int 1) defaultCtx = .ok (Val.none, Val.str "Err")
    ∧ item_or_sequence (fail "Err") .list false (Val.list [Val.int 1]) defaultCtx
        = .ok (Val.none, Val.idict [(0, Val.str "Err")])
    ∧ item_or_sequence (fail "Err") .list false (Val.list [Val.int 1]) defaultCtx
        ≠ fail "Err" (Val.int 1) defaultCtx := by
  refine ⟨rfl, rfl, rfl, fun h => ?_⟩
  have h2 : (Except.ok (Val.none, Val.idict [(0, Val.str "Err")]) : CRes)
      = Except.ok (Val.none, Val.str "Err") := h
  simp only [Except.ok.injEq, Prod.mk.injEq] at h2
  exact Val.noConfusion h2.2

/--
C7 amended: converting a single-element list `[v]` through
`item_or_sequence(conv)` yields the same result as converting `v` directly
through `conv`, provided `conv` returns a null error on `v` and its converted
value is not itself a nested container.
-/
theorem C7_collapse_amended (conv : Conv) (v : Val) (ctx : Ctx) (cv : Val)
    (hc : conv v ctx = .ok (cv, Val.none)) (hcv : isContainer cv = false) :
    item_or_sequence conv .list false (Val.list [v]) ctx = conv v ctx := by
  have h5 : item_or_sequence conv .list false (Val.list [v]) ctx
      = (uniform_sequence conv (consOf .list) false false (Val.list [v]) ctx) >>= (fun r =>
          if r.2.isNone then pipeRest [extract_when_singleton] r.1 else pure r) := rfl
  have e4 : uniform_sequence conv (consOf .list) false false (Val.list [v]) ctx = (do
      let (outs, errs) ← usLoop conv ctx false [v] 0
      pure (seqFinish (consOf .list) false outs errs)) := rfl
  have e3 : usLoop conv ctx false [v] 0 = (do
      let r ← conv v ctx
      let (outs, errs) ← usLoop conv ctx false [] 1
      pure ((if false || !r.1.isNone then r.1 :: outs else outs),
            (if r.2.isNone then errs else (0, r.2) :: errs))) := rfl
  by_cases hn : cv.isNone = true
  · have hcve : cv = Val.none := (isNone_iff cv).mp hn
    subst hcve
    have h3 : usLoop conv ctx false [v] 0 = .ok ([], []) := by
      rw [e3, hc, bind_ok_eq]
      rfl
    rw [h5, e4, h3, bind_ok_eq, hc]
    rfl
  · have hnf : cv.isNone = false := by
      cases hb : cv.isNone
      · rfl
      · exact absurd hb hn
    have h3 : usLoop conv ctx false [v] 0 = .ok ([cv], []) := by
      rw [e3, hc, bind_ok_eq]
      simp [usLoop, hnf, pure_eq_ok, bind_ok_eq, isNone_none]
    have h4 : uniform_sequence conv (consOf .list) false false (Val.list [v]) ctx
        = .ok (Val.list [cv], Val.none) := by
      rw [e4, h3, bind_ok_eq]
      rfl
    have hst : singletonTest (Val.list [cv]) = pure true := by
      simp [singletonTest, pyLen, pyItem0, hcv, bind_ok_eq]
    have hew : extract_when_singleton (Val.list [cv]) defaultCtx = .ok (cv, Val.none) := by
      have e : extract_when_singleton (Val.list [cv]) defaultCtx
          = (singletonTest (Val.list [cv])) >>= (fun b =>
              (if b then pure (Val.list [cv], Val.none)
               else pure (Val.none, Val.str (defaultCtx.translate "Test failed"))) >>= (fun t =>
                if t.2.isNone then function (Option.some extractFn) false (Val.list [cv]) defaultCtx
                else pure (Val.list [cv], Val.none))) := rfl
      rw [e, hst]
      rfl
    rw [h5, h4, bind_ok_eq]
    have hpr : pipeRest [extract_when_singleton] (Val.list [cv])
        = (extract_when_singleton (Val.list [cv]) defaultCtx) >>= (fun r =>
            if r.2.isNone then pipeRest [] r.1 else pure r) := rfl
    have hfin : (if (Val.list [cv], Val.none).2.isNone
          then pipeRest [extract_when_singleton] (Val.list [cv], Val.none).1
          else pure (Val.list [cv], Val.none))
        = pipeRest [extract_when_singleton] (Val.list [cv]) := rfl
    rw [hfin, hpr, hew, bind_ok_eq, hc]
    rfl

/-- Witness for the amended C7 at `conv = noop`, `v = 5`. -/
theorem C7_collapse_amended_witness :
    item_or_sequence noop .list false (Val.list [Val.int 5]) defaultCtx
      = noop (Val.int 5) defaultCtx :=
  C7_collapse_amended noop (Val.int 5) defaultCtx (Val.int 5) rfl rfl

/-- §4.1 clause 1: applying the converter to the absent marker returns
`(absent, null)` whatever the context. -/
def PropagatesAbsent (c : Conv) : Prop :=
  ∀ ctx : Ctx, c Val.none ctx = .ok (Val.none, Val.none)

/-- Converters built per §4 from the listed combinators. Leaves are arbitrary
converters satisfying §4.1's absent clause; `test` and `function` appear with
the spec's signature (no `handle_none` override); the combinators documented
as absent-handling exceptions (`require`, `default`, `set_value`, `fail`) are
not part of the grammar. `pipe` lists may contain `None` entries (§4.2 treats
them as skipped), except a non-empty list of only `None` entries: on that one
the code raises `UnboundLocalError` instead of returning a result, so it is a
counterexample to the unrestricted claim, not part of the grammar. -/
inductive BuiltPer4 : Conv → Prop where
  | contract (c : Conv) (h : PropagatesAbsent c) : BuiltPer4 c
  | pipe (cs : List (Option Conv)) (h : ∀ c : Conv, Option.some c ∈ cs → BuiltPer4 c)
      (hne : cs = [] ∨ cs.filterMap id ≠ []) :
      BuiltPer4 (Biryani.pipe cs)
  | condition (t ok : Conv) (ec : Option Conv) (ht : BuiltPer4 t) (hok : BuiltPer4 ok) :
      BuiltPer4 (Biryani.condition t ok ec)
  | first_match (cs : List Conv) (h : ∀ c, c ∈ cs → BuiltPer4 c) :
      BuiltPer4 (Biryani.first_match cs)
  | structured_mapping (convs : List (String × Option Conv)) (cons : List (String × Val) → Val)
      (dflt : DefaultArg) (ke : Bool) :
      BuiltPer4 (Biryani.structured_mapping convs cons dflt ke)
  | structured_sequence (convs : List (Option Conv)) (cons : List Val → Val)
      (dflt : DefaultArg) (ke : Bool) :
      BuiltPer4 (Biryani.structured_sequence convs cons dflt ke)
  | uniform_sequence (c : Conv) (cons : List Val → Val) (ke kni : Bool) :
      BuiltPer4 (Biryani.uniform_sequence c cons ke kni)
  | item_or_sequence (c : Conv) (cls : PyCls) (kni : Bool) :
      BuiltPer4 (Biryani.item_or_sequence c cls kni)
  | test (f : Option (Val → Except Exc Bool)) (msg : String) :
      BuiltPer4 (Biryani.test f msg false)
  | translate (tbl : Option (List (Val × Val))) : BuiltPer4 (Biryani.translate tbl)
  | function (f : Option (Val → Except Exc Val)) : BuiltPer4 (Biryani.function f false)
  | noop : BuiltPer4 Biryani.noop

/-- The tail of a pipe of absence-propagating converters propagates absence
(with the default state, which is how `pipe` calls it). -/
theorem pipeRest_absent (cs : List Conv) (h : ∀ c, c ∈ cs → PropagatesAbsent c) :
    pipeRest cs Val.none = .ok (Val.none, Val.none) := by
  induction cs with
  | nil => rfl
  | cons c rest ih =>
    have e : pipeRest (c :: rest) Val.none
        = (c Val.none defaultCtx) >>= (fun r => if r.2.isNone then pipeRest rest r.1 else pure r) :=
      rfl
    rw [e, h c (List.mem_cons_self c rest) defaultCtx, bind_ok_eq]
    exact ih (fun c' hc' => h c' (List.mem_cons_of_mem c hc'))

/-- A converter found in `filterMap id` of the pipe's entries is a `Some`
entry of the list. -/
theorem mem_of_mem_filterMap_id (cs : List (Option Conv)) (c : Conv)
    (h : c ∈ cs.filterMap id) : Option.some c ∈ cs := by
  rcases List.mem_filterMap.mp h with ⟨a, ha, hae⟩
  have ha2 : a = Option.some c := hae
  rw [ha2] at ha
  exact ha

/-- A pipe whose actual (non-`None`) converters all propagate absence itself
propagates absence, provided its list is empty or holds at least one actual
converter (otherwise the code raises instead of returning). -/
theorem pipe_absent (cs : List (Option Conv))
    (h : ∀ c : Conv, Option.some c ∈ cs → PropagatesAbsent c)
    (hne : cs = [] ∨ cs.filterMap id ≠ []) : PropagatesAbsent (pipe cs) := by
  intro ctx
  cases cs with
  | nil => rfl
  | cons o rest =>
    have hfm : (o :: rest).filterMap id ≠ [] := by
      rcases hne with h0 | h1
      · exact absurd h0 (List.cons_ne_nil o rest)
      · exact h1
    cases hfm2 : (o :: rest).filterMap id with
    | nil => exact absurd hfm2 hfm
    | cons c rest2 =>
      have e0 : pipe (o :: rest) Val.none ctx
          = (match (o :: rest).filterMap id with
             | [] => (throw Exc.unboundLocalError : CRes)
             | c2 :: rest3 => (c2 Val.none ctx) >>= (fun r =>
                 if r.2.isNone then pipeRest rest3 r.1 else pure r)) := rfl
      rw [e0, hfm2]
      have hcmem : c ∈ (o :: rest).filterMap id := by
        rw [hfm2]
        exact List.mem_cons_self c rest2
      show (c Val.none ctx) >>= (fun r =>
          if r.2.isNone then pipeRest rest2 r.1 else pure r) = Except.ok (Val.none, Val.none)
      rw [h c (mem_of_mem_filterMap_id (o :: rest) c hcmem) ctx, bind_ok_eq]
      have hred : (if (Val.none, Val.none).2.isNone
            then pipeRest rest2 (Val.none, Val.none).1
            else pure (Val.none, Val.none))
          = pipeRest rest2 Val.none := rfl
      rw [hred]
      refine pipeRest_absent rest2 (fun c2 hc2 =>
        h c2 (mem_of_mem_filterMap_id (o :: rest) c2 ?_))
      rw [hfm2]
      exact List.mem_cons_of_mem c hc2

/-- `first_match` over absence-propagating converters propagates absence. -/
theorem first_match_absent (cs : List Conv) (h : ∀ c, c ∈ cs → PropagatesAbsent c) :
    PropagatesAbsent (first_match cs) := by
  intro ctx
  cases cs with
  | nil => rfl
  | cons c rest =>
    have e : first_match (c :: rest) Val.none ctx
        = (c Val.none ctx) >>= (fun r =>
            if r.2.isNone then pure r else firstMatchGo Val.none ctx rest r) := rfl
    rw [e, h c (List.mem_cons_self c rest) ctx, bind_ok_eq]
    rfl

/-- `condition` over an absence-propagating test and success branch
propagates absence (the error branch is never consulted on absent input). -/
theorem condition_absent (t ok : Conv) (ec : Option Conv)
    (ht : PropagatesAbsent t) (hok : PropagatesAbsent ok) :
    PropagatesAbsent (condition t ok ec) := by
  intro ctx
  have e : condition t ok ec Val.none ctx
      = (t Val.none ctx) >>= (fun r =>
          if r.2.isNone then ok Val.none ctx
          else match ec with
            | Option.none => pure (Val.none, Val.none)
            | Option.some c => c Val.none ctx) := rfl
  rw [e, ht ctx, bind_ok_eq]
  exact hok ctx

/--
C2 (amended): every converter built per §4 from `pipe`, `condition`,
`first_match`, `structured_mapping`, `structured_sequence`,
`uniform_sequence`, `item_or_sequence`, `test`, `translate`, `function` and
`noop` — over leaves satisfying §4.1's absent clause — maps the absent marker
to `(None, None)` for every context, where a `pipe`'s converter list may
contain `None` entries provided it is empty or holds at least one actual
converter. (`require`, `default`, `set_value` and `fail` are outside the
grammar: they are the documented exceptions. The excluded non-empty all-`None`
pipe raises `UnboundLocalError`; see the counterexample.)
-/
theorem C2_absence_propagation (c : Conv) (h : BuiltPer4 c) : PropagatesAbsent c := by
  induction h with
  | contract c hc => exact hc
  | pipe cs h hne ih => exact pipe_absent cs ih hne
  | condition t ok ec ht hok iht ihok => exact condition_absent t ok ec iht ihok
  | first_match cs h ih => exact first_match_absent cs ih
  | structured_mapping convs cons dflt ke => exact fun ctx => rfl
  | structured_sequence convs cons dflt ke => exact fun ctx => rfl
  | uniform_sequence c cons ke kni => exact fun ctx => rfl
  | item_or_sequence c cls kni => exact fun ctx => rfl
  | test f msg => exact fun ctx => rfl
  | translate tbl => exact fun ctx => rfl
  | function f => cases f <;> exact fun ctx => rfl
  | noop => exact fun ctx => rfl

/--
C2 counterexample: the claim as stated fails on a §4-built combinator. §4.2
sanctions `None` entries in `pipe`'s converter list (skipped, treated as
identity), but on a non-empty all-`None` list the code's loop never assigns
the local `value`, so the final `return value, None` raises
`UnboundLocalError` — also on absent input. `pipe(None)` applied to the
absent marker therefore does not return `(absent, null)`, and `pipe` is not
among the four documented exceptions.
-/
theorem C2_absence_propagation_counterexample :
    pipe [Option.none] Val.none defaultCtx = .error Exc.unboundLocalError
    ∧ pipe [Option.none] Val.none defaultCtx ≠ .ok (Val.none, Val.none) := by
  refine ⟨rfl, fun h => ?_⟩
  have h2 : (Except.error Exc.unboundLocalError : CRes) = .ok (Val.none, Val.none) := h
  exact Except.noConfusion h2

/-- Witness for the amended C2: a pipe holding a skipped `None` entry, `noop`
and a predicate-less `test`, built by the grammar, applied to the absent
marker under the default state. -/
theorem C2_absence_propagation_witness :
    pipe [Option.none, Option.some noop,
        Option.some (test Option.none "Test failed" false)] Val.none defaultCtx
      = .ok (Val.none, Val.none) :=
  C2_absence_propagation
    (pipe [Option.none, Option.some noop, Option.some (test Option.none "Test failed" false)])
    (BuiltPer4.pipe
      [Option.none, Option.some noop, Option.some (test Option.none "Test failed" false)]
      (fun c hc => by
        cases hc with
        | tail _ hc2 =>
          cases hc2 with
          | head => exact BuiltPer4.noop
          | tail _ hc3 =>
            cases hc3 with
            | head => exact BuiltPer4.test Option.none "Test failed"
            | tail _ hc4 => cases hc4)
      (Or.inr (fun hh =>
        List.noConfusion
          (show ([noop, test Option.none "Test failed" false] : List Conv) = [] from hh))))
    defaultCtx

/-- If a table entry's converter succeeds with a non-null value, the key/value
pair lands in the loop's output mapping — whatever the other entries do. -/
theorem smLoop_ok_mem_out (entries : List (String × Val)) (ctx : Ctx)
    (k : String) (c : Conv) (v : Val)
    (hc : c (dictGet entries k) ctx = .ok (v, Val.none)) (hv : v.isNone = false) :
    ∀ (tbl : List (String × Conv)) (outs errs : List (String × Val)),
      smLoop entries ctx tbl = .ok (outs, errs) → (k, c) ∈ tbl → (k, v) ∈ outs := by
  intro tbl
  induction tbl with
  | nil => intro outs errs _ hk; cases hk
  | cons p rest ih =>
    obtain ⟨name, c0⟩ := p
    intro outs errs hl hk
    have e : smLoop entries ctx ((name, c0) :: rest) = (do
        let r ← c0 (dictGet entries name) ctx
        let (os, es) ← smLoop entries ctx rest
        if !r.2.isNone then pure (os, (name, r.2) :: es)
        else if !r.1.isNone then pure ((name, r.1) :: os, es)
        else pure (os, es)) := rfl
    rw [e] at hl
    rcases List.mem_cons.mp hk with heq | hmem
    · injection heq with h1 h2
      subst h1
      subst h2
      rw [hc, bind_ok_eq] at hl
      cases hrest : smLoop entries ctx rest with
      | error ex => rw [hrest, bind_error_eq] at hl; exact Except.noConfusion hl
      | ok pr =>
        obtain ⟨os, es⟩ := pr
        rw [hrest, bind_ok_eq] at hl
        have hl2 : (if !v.isNone then (pure ((k, v) :: os, es) : Except Exc _)
            else pure (os, es)) = .ok (outs, errs) := hl
        rw [hv] at hl2
        simp only [Bool.not_false, if_true, pure_eq_ok, Except.ok.injEq, Prod.mk.injEq] at hl2
        exact hl2.1 ▸ List.mem_cons_self (k, v) os
    · cases hr : c0 (dictGet entries name) ctx with
      | error ex => rw [hr, bind_error_eq] at hl; exact Except.noConfusion hl
      | ok r =>
        rw [hr, bind_ok_eq] at hl
        cases hrest : smLoop entries ctx rest with
        | error ex => rw [hrest, bind_error_eq] at hl; exact Except.noConfusion hl
        | ok pr =>
          obtain ⟨os, es⟩ := pr
          rw [hrest, bind_ok_eq] at hl
          have hin : (k, v) ∈ os := ih os es hrest hmem
          cases hb2 : r.2.isNone with
          | false =>
            simp [hb2, pure_eq_ok] at hl
            obtain ⟨h1, h2⟩ := hl
            subst h1
            exact hin
          | true =>
            cases hb1 : r.1.isNone with
            | false =>
              simp [hb2, hb1, pure_eq_ok] at hl
              obtain ⟨h1, h2⟩ := hl
              subst h1
              exact List.mem_cons_of_mem (name, r.1) hin
            | true =>
              simp [hb2, hb1, pure_eq_ok] at hl
              obtain ⟨h1, h2⟩ := hl
              subst h1
              exact hin

/-- If a table entry's converter returns a non-null error, the key/error pair
lands in the loop's error mapping — whatever the other entries do. -/
theorem smLoop_ok_mem_err (entries : List (String × Val)) (ctx : Ctx)
    (k : String) (c : Conv) (v e : Val)
    (hc : c (dictGet entries k) ctx = .ok (v, e)) (he : e.isNone = false) :
    ∀ (tbl : List (String × Conv)) (outs errs : List (String × Val)),
      smLoop entries ctx tbl = .ok (outs, errs) → (k, c) ∈ tbl → (k, e) ∈ errs := by
  intro tbl
  induction tbl with
  | nil => intro outs errs _ hk; cases hk
  | cons p rest ih =>
    obtain ⟨name, c0⟩ := p
    intro outs errs hl hk
    have eq1 : smLoop entries ctx ((name, c0) :: rest) = (do
        let r ← c0 (dictGet entries name) ctx
        let (os, es) ← smLoop entries ctx rest
        if !r.2.isNone then pure (os, (name, r.2) :: es)
        else if !r.1.isNone then pure ((name, r.1) :: os, es)
        else pure (os, es)) := rfl
    rw [eq1] at hl
    rcases List.mem_cons.mp hk with heq | hmem
    · injection heq with h1 h2
      subst h1
      subst h2
      rw [hc, bind_ok_eq] at hl
      cases hrest : smLoop entries ctx rest with
      | error ex => rw [hrest, bind_error_eq] at hl; exact Except.noConfusion hl
      | ok pr =>
        obtain ⟨os, es⟩ := pr
        rw [hrest, bind_ok_eq] at hl
        have hl2 : (if !e.isNone then (pure (os, (k, e) :: es) : Except Exc _)
            else if !v.isNone then pure ((k, v) :: os, es) else pure (os, es))
            = .ok (outs, errs) := hl
        rw [he] at hl2
        simp only [Bool.not_false, if_true, pure_eq_ok, Except.ok.injEq, Prod.mk.injEq] at hl2
        exact hl2.2 ▸ List.mem_cons_self (k, e) es
    · cases hr : c0 (dictGet entries name) ctx with
      | error ex => rw [hr, bind_error_eq] at hl; exact Except.noConfusion hl
      | ok r =>
        rw [hr, bind_ok_eq] at hl
        cases hrest : smLoop entries ctx rest with
        | error ex => rw [hrest, bind_error_eq] at hl; exact Except.noConfusion hl
        | ok pr =>
          obtain ⟨os, es⟩ := pr
          rw [hrest, bind_ok_eq] at hl
          have hin : (k, e) ∈ es := ih os es hrest hmem
          cases hb2 : r.2.isNone with
          | false =>
            simp [hb2, pure_eq_ok] at hl
            obtain ⟨h1, h2⟩ := hl
            subst h2
            exact List.mem_cons_of_mem (name, r.2) hin
          | true =>
            cases hb1 : r.1.isNone with
            | false =>
              simp [hb2, hb1, pure_eq_ok] at hl
              obtain ⟨h1, h2⟩ := hl
              subst h2
              exact hin
            | true =>
              simp [hb2, hb1, pure_eq_ok] at hl
              obtain ⟨h1, h2⟩ := hl
              subst h2
              exact hin

/-- Running `structured_mapping_converter`'s body on a mapping, given the
loop's result. -/
theorem smc_run (tbl : List (String × Conv)) (cons : List (String × Val) → Val)
    (dflt : DefaultArg) (ke : Bool) (entries : List (String × Val)) (ctx : Ctx)
    (outs errs : List (String × Val))
    (hl : smLoop entries ctx (effTable tbl (entries.map (fun p => p.1)) dflt) = .ok (outs, errs)) :
    smcOf tbl cons dflt ke (Val.dict entries) ctx = .ok (smFinish cons ke outs errs) := by
  have e : smcOf tbl cons dflt ke (Val.dict entries) ctx = (do
      let (os, es) ← smLoop entries ctx (effTable tbl (entries.map (fun p => p.1)) dflt)
      pure (smFinish cons ke os es)) := rfl
  rw [e, hl, bind_ok_eq]
  rfl

/--
C3: per-key independence of `structured_mapping`. Over any effective table,
when the whole loop completes, a key whose converter succeeded with a
non-null value appears in the output mapping, and a key whose converter
returned a non-null error appears in the error mapping — each regardless of
the other keys; the converter's overall result pairs the two mappings.
-/
theorem C3_structured_mapping_independence (convs : List (String × Option Conv))
    (entries : List (String × Val)) (ctx : Ctx) (dflt : DefaultArg) (ke : Bool)
    (outs errs : List (String × Val))
    (hl : smLoop entries ctx (effTable (filterTable convs) (entries.map (fun p => p.1)) dflt)
      = .ok (outs, errs))
    (k : String) (c : Conv) (v : Val)
    (hk : (k, c) ∈ effTable (filterTable convs) (entries.map (fun p => p.1)) dflt)
    (hc : c (dictGet entries k) ctx = .ok (v, Val.none)) (hv : v.isNone = false)
    (k2 : String) (c2 : Conv) (v2 e2 : Val)
    (hk2 : (k2, c2) ∈ effTable (filterTable convs) (entries.map (fun p => p.1)) dflt)
    (hc2 : c2 (dictGet entries k2) ctx = .ok (v2, e2)) (he2 : e2.isNone = false) :
    structured_mapping convs Val.dict dflt ke (Val.dict entries) ctx
      = .ok (smFinish Val.dict ke outs errs)
    ∧ (k, v) ∈ outs ∧ (k2, e2) ∈ errs := by
  refine ⟨smc_run (filterTable convs) Val.dict dflt ke entries ctx outs errs hl, ?_, ?_⟩
  · exact smLoop_ok_mem_out entries ctx k c v hc hv _ outs errs hl hk
  · exact smLoop_ok_mem_err entries ctx k2 c2 v2 e2 hc2 he2 _ outs errs hl hk2

/-- Witness for C3: the spec's `{a: require, b: require}` on `{a: None, b: 1}`
yields the value `{b: 1}` together with the error `{a: 'Missing value'}`. -/
theorem C3_structured_mapping_independence_witness :
    structured_mapping [("a", Option.some require), ("b", Option.some require)] Val.dict
        .null false (Val.dict [("a", Val.none), ("b", Val.int 1)]) defaultCtx
      = .ok (Val.dict [("b", Val.int 1)], Val.dict [("a", Val.str "Missing value")])
    ∧ ("b", Val.int 1) ∈ [(("b" : String), Val.int 1)]
    ∧ ("a", Val.str "Missing value") ∈ [(("a" : String), Val.str "Missing value")] := by
  have h := C3_structured_mapping_independence
    [("a", Option.some require), ("b", Option.some require)]
    [("a", Val.none), ("b", Val.int 1)] defaultCtx .null false
    [("b", Val.int 1)] [("a", Val.str "Missing value")] rfl
    "b" require (Val.int 1) (List.Mem.tail _ (List.Mem.head _)) rfl rfl
    "a" require Val.none (Val.str "Missing value") (List.Mem.head _) rfl rfl
  exact ⟨h.1, h.2.1, h.2.2⟩

/-- Extending the table only appends: configured entries survive. -/
theorem effFold_mem_orig (dflt : DefaultArg) (names : List String) :
    ∀ (acc : List (String × Conv)) (p : String × Conv),
      p ∈ acc → p ∈ names.foldl (effStep dflt) acc := by
  induction names with
  | nil => intro acc p h; exact h
  | cons n rest ih =>
    intro acc p h
    show p ∈ rest.foldl (effStep dflt) (effStep dflt acc n)
    apply ih
    unfold effStep
    by_cases hh : hasName acc n = true
    · rw [if_pos hh]; exact h
    · rw [if_neg hh]; exact List.mem_append_left _ h

/-- Every entry of the extended table is either configured or carries the
default-policy converter. -/
theorem effFold_mem_inv (dflt : DefaultArg) (names : List String) :
    ∀ (acc : List (String × Conv)) (p : String × Conv),
      p ∈ names.foldl (effStep dflt) acc → p ∈ acc ∨ p.2 = defaultConvOf dflt := by
  induction names with
  | nil => intro acc p h; exact Or.inl h
  | cons n rest ih =>
    intro acc p h
    rcases ih (effStep dflt acc n) p h with hacc | hd
    · unfold effStep at hacc
      by_cases hh : hasName acc n = true
      · rw [if_pos hh] at hacc; exact Or.inl hacc
      · rw [if_neg hh] at hacc
        rcases List.mem_append.mp hacc with h1 | h2
        · exact Or.inl h1
        · have hp : p = (n, defaultConvOf dflt) := List.mem_singleton.mp h2
          exact Or.inr (by rw [hp])
    · exact Or.inr hd

/-- `name in values_converter` after appending a single entry. -/
theorem hasName_append_single (acc : List (String × Conv)) (n : String) (d : Conv)
    (k : String) : hasName (acc ++ [(n, d)]) k = (hasName acc k || (n == k)) := by
  simp [hasName, List.any_append]

/-- An input key absent from the configured table gets the default-policy
converter in the extended table. -/
theorem effFold_adds (dflt : DefaultArg) (names : List String) :
    ∀ (acc : List (String × Conv)) (k : String), k ∈ names → hasName acc k = false →
      (k, defaultConvOf dflt) ∈ names.foldl (effStep dflt) acc := by
  induction names with
  | nil => intro acc k h _; cases h
  | cons n rest ih =>
    intro acc k hmem hno
    show (k, defaultConvOf dflt) ∈ rest.foldl (effStep dflt) (effStep dflt acc n)
    by_cases heq : n = k
    · subst heq
      have hstep : effStep dflt acc n = acc ++ [(n, defaultConvOf dflt)] := by
        unfold effStep
        rw [if_neg (by simp [hno])]
      rw [hstep]
      exact effFold_mem_orig dflt rest _ _
        (List.mem_append_right _ (List.mem_singleton_self _))
    · have hmem2 : k ∈ rest := by
        rcases List.mem_cons.mp hmem with h | h
        · exact absurd h.symm heq
        · exact h
      have hno2 : hasName (effStep dflt acc n) k = false := by
        unfold effStep
        by_cases hh : hasName acc n = true
        · rw [if_pos hh]; exact hno
        · rw [if_neg hh, hasName_append_single]
          simp [hno, heq]
      exact ih (effStep dflt acc n) k hmem2 hno2

/-- A key that `hasName` rejects has no entry in the table. -/
theorem hasName_false_not_mem (tbl : List (String × Conv)) (k : String)
    (h : hasName tbl k = false) : ∀ c : Conv, (k, c) ∉ tbl := by
  intro c hmem
  have h2 : ¬ ((k, c).1 == k) = true := by
    simp only [hasName, List.any_eq_false] at h
    exact h (k, c) hmem
  exact h2 (by simp)

/-- Every entry of the loop's output mapping came from a table entry whose
converter succeeded with that non-null value. -/
theorem smLoop_ok_out_inv (entries : List (String × Val)) (ctx : Ctx) :
    ∀ (tbl : List (String × Conv)) (outs errs : List (String × Val)),
      smLoop entries ctx tbl = .ok (outs, errs) →
      ∀ (k : String) (v : Val), (k, v) ∈ outs →
        ∃ c : Conv, (k, c) ∈ tbl ∧ c (dictGet entries k) ctx = .ok (v, Val.none)
          ∧ v.isNone = false := by
  intro tbl
  induction tbl with
  | nil =>
    intro outs errs hl k v hm
    have h0 : (Except.ok (([] : List (String × Val)), ([] : List (String × Val)))
        : Except Exc _) = Except.ok (outs, errs) := hl
    injection h0 with hp
    injection hp with h1 h2
    rw [← h1] at hm
    cases hm
  | cons p rest ih =>
    obtain ⟨name, c0⟩ := p
    intro outs errs hl k v hm
    have e : smLoop entries ctx ((name, c0) :: rest) = (do
        let r ← c0 (dictGet entries name) ctx
        let (os, es) ← smLoop entries ctx rest
        if !r.2.isNone then pure (os, (name, r.2) :: es)
        else if !r.1.isNone then pure ((name, r.1) :: os, es)
        else pure (os, es)) := rfl
    rw [e] at hl
    cases hr : c0 (dictGet entries name) ctx with
    | error ex => rw [hr, bind_error_eq] at hl; exact Except.noConfusion hl
    | ok r =>
      obtain ⟨r1, r2⟩ := r
      rw [hr, bind_ok_eq] at hl
      cases hrest : smLoop entries ctx rest with
      | error ex => rw [hrest, bind_error_eq] at hl; exact Except.noConfusion hl
      | ok pr =>
        obtain ⟨os, es⟩ := pr
        rw [hrest, bind_ok_eq] at hl
        cases hb2 : r2.isNone with
        | false =>
          simp [hb2, pure_eq_ok] at hl
          obtain ⟨h1, h2⟩ := hl
          subst h1
          obtain ⟨c, hc1, hc2, hc3⟩ := ih os es hrest k v hm
          exact ⟨c, List.mem_cons_of_mem _ hc1, hc2, hc3⟩
        | true =>
          cases hb1 : r1.isNone with
          | false =>
            simp [hb2, hb1, pure_eq_ok] at hl
            obtain ⟨h1, h2⟩ := hl
            subst h1
            rcases List.mem_cons.mp hm with hh | ht
            · injection hh with e1 e2
              subst e1
              refine ⟨c0, List.mem_cons_self _ _, ?_, ?_⟩
              · rw [hr, e2, (isNone_iff r2).mp hb2]
              · rw [e2]; exact hb1
            · obtain ⟨c, hc1, hc2, hc3⟩ := ih os es hrest k v ht
              exact ⟨c, List.mem_cons_of_mem _ hc1, hc2, hc3⟩
          | true =>
            simp [hb2, hb1, pure_eq_ok] at hl
            obtain ⟨h1, h2⟩ := hl
            subst h1
            obtain ⟨c, hc1, hc2, hc3⟩ := ih os es hrest k v hm
            exact ⟨c, List.mem_cons_of_mem _ hc1, hc2, hc3⟩

/-- Every entry of the loop's error mapping came from a table entry whose
converter returned that non-null error. -/
theorem smLoop_ok_err_inv (entries : List (String × Val)) (ctx : Ctx) :
    ∀ (tbl : List (String × Conv)) (outs errs : List (String × Val)),
      smLoop entries ctx tbl = .ok (outs, errs) →
      ∀ (k : String) (err : Val), (k, err) ∈ errs →
        ∃ (c : Conv) (v : Val), (k, c) ∈ tbl ∧ c (dictGet entries k) ctx = .ok (v, err)
          ∧ err.isNone = false := by
  intro tbl
  induction tbl with
  | nil =>
    intro outs errs hl k err hm
    have h0 : (Except.ok (([] : List (String × Val)), ([] : List (String × Val)))
        : Except Exc _) = Except.ok (outs, errs) := hl
    injection h0 with hp
    injection hp with h1 h2
    rw [← h2] at hm
    cases hm
  | cons p rest ih =>
    obtain ⟨name, c0⟩ := p
    intro outs errs hl k err hm
    have e : smLoop entries ctx ((name, c0) :: rest) = (do
        let r ← c0 (dictGet entries name) ctx
        let (os, es) ← smLoop entries ctx rest
        if !r.2.isNone then pure (os, (name, r.2) :: es)
        else if !r.1.isNone then pure ((name, r.1) :: os, es)
        else pure (os, es)) := rfl
    rw [e] at hl
    cases hr : c0 (dictGet entries name) ctx with
    | error ex => rw [hr, bind_error_eq] at hl; exact Except.noConfusion hl
    | ok r =>
      obtain ⟨r1, r2⟩ := r
      rw [hr, bind_ok_eq] at hl
      cases hrest : smLoop entries ctx rest with
      | error ex => rw [hrest, bind_error_eq] at hl; exact Except.noConfusion hl
      | ok pr =>
        obtain ⟨os, es⟩ := pr
        rw [hrest, bind_ok_eq] at hl
        cases hb2 : r2.isNone with
        | false =>
          simp [hb2, pure_eq_ok] at hl
          obtain ⟨h1, h2⟩ := hl
          subst h2
          rcases List.mem_cons.mp hm with hh | ht
          · injection hh with e1 e2
            subst e1
            refine ⟨c0, r1, List.mem_cons_self _ _, ?_, ?_⟩
            · rw [hr, e2]
            · rw [e2]; exact hb2
          · obtain ⟨c, v, hc1, hc2, hc3⟩ := ih os es hrest k err ht
            exact ⟨c, v, List.mem_cons_of_mem _ hc1, hc2, hc3⟩
        | true =>
          cases hb1 : r1.isNone with
          | false =>
            simp [hb2, hb1, pure_eq_ok] at hl
            obtain ⟨h1, h2⟩ := hl
            subst h2
            obtain ⟨c, v, hc1, hc2, hc3⟩ := ih os es hrest k err hm
            exact ⟨c, v, List.mem_cons_of_mem _ hc1, hc2, hc3⟩
          | true =>
            simp [hb2, hb1, pure_eq_ok] at hl
            obtain ⟨h1, h2⟩ := hl
            subst h2
            obtain ⟨c, v, hc1, hc2, hc3⟩ := ih os es hrest k err hm
            exact ⟨c, v, List.mem_cons_of_mem _ hc1, hc2, hc3⟩

/--
C5: an input key with no configured converter follows the default policy.
With default `None` it is assigned the `'Unexpected item'` failure converter:
the error mapping holds the translated message under that key and the output
mapping has no entry for it. With default `'ignore'` the key is simply absent
from the table: neither the output nor the error mapping mentions it. With a
fallback converter, that converter is the key's entry in the effective table.
-/
theorem C5_unknown_key_policy (convs : List (String × Option Conv))
    (entries : List (String × Val)) (ctx : Ctx) (k : String) (ke : Bool)
    (hk : k ∈ entries.map (fun p => p.1))
    (hnc : hasName (filterTable convs) k = false) :
    (∀ outs errs : List (String × Val),
      smLoop entries ctx (effTable (filterTable convs) (entries.map (fun p => p.1)) .null)
          = .ok (outs, errs) →
      structured_mapping convs Val.dict .null ke (Val.dict entries) ctx
          = .ok (smFinish Val.dict ke outs errs)
        ∧ (k, Val.str (ctx.translate "Unexpected item")) ∈ errs
        ∧ ∀ v : Val, (k, v) ∉ outs)
    ∧ (∀ outs errs : List (String × Val),
      smLoop entries ctx (filterTable convs) = .ok (outs, errs) →
      structured_mapping convs Val.dict .ignore ke (Val.dict entries) ctx
          = .ok (smFinish Val.dict ke outs errs)
        ∧ (∀ v : Val, (k, v) ∉ outs) ∧ (∀ err : Val, (k, err) ∉ errs))
    ∧ (∀ d : Conv, (k, d) ∈ effTable (filterTable convs) (entries.map (fun p => p.1)) (.conv d)) := by
  refine ⟨fun outs errs hl => ⟨smc_run _ Val.dict .null ke entries ctx outs errs hl, ?_, ?_⟩,
    fun outs errs hl => ⟨smc_run _ Val.dict .ignore ke entries ctx outs errs hl, ?_, ?_⟩,
    fun d => effFold_adds (.conv d) _ _ k hk hnc⟩
  · exact smLoop_ok_mem_err entries ctx k (fail "Unexpected item") Val.none
      (Val.str (ctx.translate "Unexpected item")) rfl rfl _ outs errs hl
      (effFold_adds .null _ _ k hk hnc)
  · intro v hv
    obtain ⟨c, hcmem, hcres, _⟩ := smLoop_ok_out_inv entries ctx _ outs errs hl k v hv
    have hcmem2 : (k, c) ∈ List.foldl (effStep DefaultArg.null) (filterTable convs)
        (entries.map (fun p => p.1)) := hcmem
    rcases effFold_mem_inv .null (entries.map (fun p => p.1)) (filterTable convs) (k, c) hcmem2
      with hintbl | hdef
    · exact hasName_false_not_mem (filterTable convs) k hnc c hintbl
    · have hc2 : c = defaultConvOf DefaultArg.null := hdef
      rw [hc2] at hcres
      have hfail : (Except.ok (Val.none, Val.str (ctx.translate "Unexpected item")) : CRes)
          = .ok (v, Val.none) := hcres
      injection hfail with hp
      injection hp with hv1 hv2
      exact Val.noConfusion hv2
  · intro v hv
    obtain ⟨c, hcmem, _, _⟩ := smLoop_ok_out_inv entries ctx _ outs errs hl k v hv
    exact hasName_false_not_mem (filterTable convs) k hnc c hcmem
  · intro err he
    obtain ⟨c, v, hcmem, _, _⟩ := smLoop_ok_err_inv entries ctx _ outs errs hl k err he
    exact hasName_false_not_mem (filterTable convs) k hnc c hcmem

/-- Witness for C5 at the spec's example `structured_mapping({a: noop})` on
`{a: 1, z: 2}` with default `None`. -/
theorem C5_unknown_key_policy_witness :
    structured_mapping [("a", Option.some noop)] Val.dict .null false
        (Val.dict [("a", Val.int 1), ("z", Val.int 2)]) defaultCtx
      = .ok (Val.dict [("a", Val.int 1)], Val.dict [("z", Val.str "Unexpected item")])
    ∧ ("z", Val.str "Unexpected item") ∈ [(("z" : String), Val.str "Unexpected item")]
    ∧ ("z", Val.int 2) ∉ [(("a" : String), Val.int 1)] := by
  have h := (C5_unknown_key_policy [("a", Option.some noop)]
      [("a", Val.int 1), ("z", Val.int 2)] defaultCtx "z" false
      (List.Mem.tail _ (List.Mem.head _)) rfl).1
      [("a", Val.int 1)] [("z", Val.str "Unexpected item")] rfl
  exact ⟨h.1, h.2.1, h.2.2 (Val.int 2)⟩

/-- The sequence loop pairs outputs with (converter, input) pairs one-to-one
and in order: each output entry is the value component of its own pair's
conversion, whatever the other positions did. -/
theorem ssLoop_ok_spec (ctx : Ctx) :
    ∀ (pairs : List (Conv × Val)) (i0 : Nat) (outs : List Val) (errs : List (Nat × Val)),
      ssLoop ctx pairs i0 = .ok (outs, errs) →
      List.Forall₂ (fun (p : Conv × Val) (w : Val) => ∃ ee : Val, p.1 p.2 ctx = .ok (w, ee))
        pairs outs := by
  intro pairs
  induction pairs with
  | nil =>
    intro i0 outs errs hl
    have h0 : (Except.ok (([] : List Val), ([] : List (Nat × Val))) : Except Exc _)
        = .ok (outs, errs) := hl
    injection h0 with hp
    injection hp with h1 h2
    rw [← h1]
    exact List.Forall₂.nil
  | cons p rest ih =>
    obtain ⟨c, w⟩ := p
    intro i0 outs errs hl
    have e : ssLoop ctx ((c, w) :: rest) i0 = (do
        let r ← c w ctx
        let (os, es) ← ssLoop ctx rest (i0 + 1)
        pure (r.1 :: os, if r.2.isNone then es else (i0, r.2) :: es)) := rfl
    rw [e] at hl
    cases hr : c w ctx with
    | error ex => rw [hr, bind_error_eq] at hl; exact Except.noConfusion hl
    | ok r =>
      obtain ⟨r1, r2⟩ := r
      rw [hr, bind_ok_eq] at hl
      cases hrest : ssLoop ctx rest (i0 + 1) with
      | error ex => rw [hrest, bind_error_eq] at hl; exact Except.noConfusion hl
      | ok pr =>
        obtain ⟨os, es⟩ := pr
        rw [hrest, bind_ok_eq] at hl
        have hl2 : (Except.ok (r1 :: os, if r2.isNone then es else (i0, r2) :: es)
            : Except Exc _) = .ok (outs, errs) := hl
        injection hl2 with hp
        injection hp with h1 h2
        rw [← h1]
        exact List.Forall₂.cons ⟨r2, hr⟩ (ih (i0 + 1) os es hrest)

/-- Padding an input no longer than `n` to length `n` yields length `n`. -/
theorem padTo_length (xs : List Val) (n : Nat) (h : xs.length ≤ n) :
    (padTo xs n).length = n := by
  unfold padTo
  rw [List.length_append, List.take_of_length_le h, List.length_replicate]
  omega

/--
C6: on an input sequence no longer than the configured converter list, the
effective table is exactly the configured list (for every default policy),
the loop's inputs are the sequence padded with the absent marker — so
trailing converters are invoked with `None` — and the output list keeps one
entry per converter position in order, each the value component of its own
position's conversion (including `None` entries).
-/
theorem C6_positional_padding (convs : List (Option Conv)) (cons : List Val → Val)
    (dflt : DefaultArg) (ke : Bool) (xs : List Val) (ctx : Ctx)
    (hshort : xs.length ≤ (convs.filterMap id).length)
    (outs : List Val) (errs : List (Nat × Val))
    (hl : ssLoop ctx ((convs.filterMap id).zip (padTo xs (convs.filterMap id).length)) 0
        = .ok (outs, errs)) :
    structured_sequence convs cons dflt ke (Val.list xs) ctx = .ok (seqFinish cons ke outs errs)
    ∧ padTo xs (convs.filterMap id).length
        = xs ++ List.replicate ((convs.filterMap id).length - xs.length) Val.none
    ∧ outs.length = (convs.filterMap id).length
    ∧ List.Forall₂ (fun (p : Conv × Val) (w : Val) => ∃ ee : Val, p.1 p.2 ctx = .ok (w, ee))
        ((convs.filterMap id).zip (padTo xs (convs.filterMap id).length)) outs := by
  have hpad : padTo xs (convs.filterMap id).length
      = xs ++ List.replicate ((convs.filterMap id).length - xs.length) Val.none := by
    unfold padTo
    rw [List.take_of_length_le hshort]
  have htbl : seqTable (convs.filterMap id) dflt xs.length = convs.filterMap id := by
    cases dflt with
    | ignore => rfl
    | null =>
      show convs.filterMap id
          ++ List.replicate (xs.length - (convs.filterMap id).length) (defaultConvOf .null)
          = convs.filterMap id
      rw [Nat.sub_eq_zero_of_le hshort]
      simp
    | conv c =>
      show convs.filterMap id
          ++ List.replicate (xs.length - (convs.filterMap id).length) (defaultConvOf (.conv c))
          = convs.filterMap id
      rw [Nat.sub_eq_zero_of_le hshort]
      simp
  have hfor := ssLoop_ok_spec ctx _ 0 outs errs hl
  refine ⟨?_, hpad, ?_, hfor⟩
  · have e : structured_sequence convs cons dflt ke (Val.list xs) ctx = (do
        let (os, es) ← ssLoop ctx ((seqTable (convs.filterMap id) dflt xs.length).zip
            (padTo xs (seqTable (convs.filterMap id) dflt xs.length).length)) 0
        pure (seqFinish cons ke os es)) := rfl
    rw [e, htbl, hl, bind_ok_eq]
    rfl
  · have hlen := List.Forall₂.length_eq hfor
    rw [List.length_zip, padTo_length xs _ hshort, Nat.min_self] at hlen
    exact hlen.symm

/-- Witness for C6 at the spec's example `structured_sequence([require,
require])([1])`: value `[1, None]`, error `{1: 'Missing value'}`, one output
entry per converter position. -/
theorem C6_positional_padding_witness :
    structured_sequence [Option.some require, Option.some require] Val.list .null false
        (Val.list [Val.int 1]) defaultCtx
      = .ok (Val.list [Val.int 1, Val.none], Val.idict [(1, Val.str "Missing value")])
    ∧ ([Val.int 1, Val.none] : List Val).length
        = ([Option.some require, Option.some require].filterMap id).length := by
  have h := C6_positional_padding [Option.some require, Option.some require] Val.list .null
      false [Val.int 1] defaultCtx (by decide) [Val.int 1, Val.none]
      [(1, Val.str "Missing value")] rfl
  exact ⟨h.1, h.2.2.1⟩

end Biryani
